import Mathlib

/-!
Verification of the mcpkit client runtime (process-backed MCP transport and
protocol session) against its design specification.

The development shallowly embeds the Go sources:
* `server.go`'s newline-delimited framing codec (`newLineRawReader.Read`,
  `newLineRawWriter.Write`) over a JSON value model, together with the
  behaviour of `encoding/json` validation and `jsonrpc2.DecodeMessage` /
  `jsonrpc2.EncodeMessage` that those functions call;
* `internal/client/client.go`'s gated client operations, `Close`, and the
  generic pagination helper `FetchAll`;
* the Session's pending-request correlation table (this logic lives in the
  `golang.org/x/exp/jsonrpc2` dependency, outside `src/`, so it is modelled
  from the specification's own description, as marked below).

Machine integers in the sources (int64 ids, error codes) are modelled as
`Int`; JSON numbers are modelled as integers, which covers every number the
repository itself puts on the wire.  Byte streams are modelled as `List Char`.
-/

/-! ## JSON value model

Models the JSON documents handled by `encoding/json` in `server.go`.
Numbers are modelled as integers (the repository's own payloads use only
integer ids and codes); object fields keep their textual order and may
repeat, matching `json.RawMessage`'s faithfulness to the input text.
-/

inductive Json where
  | null : Json
  | bool : Bool → Json
  | num : Int → Json
  | str : String → Json
  | arr : List Json → Json
  | obj : List (String × Json) → Json

/-- The opening curly bracket character. -/
def lcurl : Char := Char.ofNat 123

/-- The closing curly bracket character. -/
def rcurl : Char := Char.ofNat 125

/-- Decimal digit characters, as produced by Go's integer formatting. -/
def digitChar : Nat → Char
  | 0 => '0'
  | 1 => '1'
  | 2 => '2'
  | 3 => '3'
  | 4 => '4'
  | 5 => '5'
  | 6 => '6'
  | 7 => '7'
  | 8 => '8'
  | _ => '9'

/-- Lower-case hexadecimal digit characters, as in Go's `\u00xx` escapes. -/
def hexDigitCh : Nat → Char
  | 0 => '0'
  | 1 => '1'
  | 2 => '2'
  | 3 => '3'
  | 4 => '4'
  | 5 => '5'
  | 6 => '6'
  | 7 => '7'
  | 8 => '8'
  | 9 => '9'
  | 10 => 'a'
  | 11 => 'b'
  | 12 => 'c'
  | 13 => 'd'
  | 14 => 'e'
  | _ => 'f'

/-- Decimal digits of a positive natural, most significant first. -/
def natChars (n : Nat) : List Char := (Nat.digits 10 n).reverse.map digitChar

/-- Go's decimal rendering of a natural number. -/
def serNat (n : Nat) : List Char := if n = 0 then ['0'] else natChars n

/-- Go's decimal rendering of an `int64`. -/
def serInt (n : Int) : List Char :=
  if n < 0 then '-' :: serNat (-n).toNat else serNat n.toNat

/-- JSON string escaping of one character, per `encoding/json`:
quote, backslash and the control characters are escaped, everything else is
emitted verbatim.  (Go additionally escapes a few HTML characters; that
changes only the spelling, not the value, and is not modelled.) -/
def escChar (c : Char) : List Char :=
  if c = '"' then ['\\', '"']
  else if c = '\\' then ['\\', '\\']
  else if c = '\n' then ['\\', 'n']
  else if c = '\r' then ['\\', 'r']
  else if c = '\t' then ['\\', 't']
  else if c.toNat < 32 then
    ['\\', 'u', '0', '0', hexDigitCh (c.toNat / 16), hexDigitCh (c.toNat % 16)]
  else [c]

/-- Escaped body of a JSON string literal. -/
def serStringBody : List Char → List Char
  | [] => []
  | c :: rest => escChar c ++ serStringBody rest

/-- A JSON string literal: quote, escaped body, quote. -/
def serString (s : String) : List Char := '"' :: serStringBody s.data ++ ['"']

/-- The four-character keyword of the JSON null literal. -/
@[simp] def litNull : List Char := ['n', 'u', 'l', 'l']

/-- The keyword of the JSON true literal. -/
@[simp] def litTrue : List Char := ['t', 'r', 'u', 'e']

/-- The keyword of the JSON false literal. -/
@[simp] def litFalse : List Char := ['f', 'a', 'l', 's', 'e']

mutual

/-- Compact JSON serialization of a value, as produced by `json.Marshal`. -/
def serJson : Json → List Char
  | .null => litNull
  | .bool true => litTrue
  | .bool false => litFalse
  | .num n => serInt n
  | .str s => serString s
  | .arr xs => '[' :: serArrItems xs ++ [']']
  | .obj kvs => lcurl :: serObjItems kvs ++ [rcurl]

/-- Comma-separated serialization of array elements. -/
def serArrItems : List Json → List Char
  | [] => []
  | [x] => serJson x
  | x :: y :: rest => serJson x ++ ',' :: serArrItems (y :: rest)

/-- Comma-separated serialization of object fields. -/
def serObjItems : List (String × Json) → List Char
  | [] => []
  | [(k, v)] => serString k ++ ':' :: serJson v
  | (k, v) :: p :: rest => serString k ++ ':' :: serJson v ++ ',' :: serObjItems (p :: rest)

end

/-! ## JSON parsing

Models the validation and decoding performed by `json.Unmarshal` on the text
of one wire line.  The parser is written with an explicit fuel argument and
only structural recursion, so that it evaluates inside the kernel. -/

/-- JSON insignificant whitespace (also what `strings.TrimSpace` removes from
the lines this codec reads, which contain no other space-class runes). -/
def isWsChar (c : Char) : Bool := c = ' ' || c = '\t' || c = '\n' || c = '\r'

/-- Drop leading whitespace. -/
def skipWs : List Char → List Char
  | [] => []
  | c :: rest => if isWsChar c then skipWs rest else c :: rest

/-- Is this character a decimal digit? -/
def isDigitCh (c : Char) : Bool := 48 ≤ c.toNat && c.toNat ≤ 57

/-- Numeric value of a decimal digit character. -/
def digitVal (c : Char) : Nat := c.toNat - 48

/-- Consume a run of decimal digits, accumulating their value. -/
def parseDigitsAux (acc : Nat) : List Char → Nat × List Char
  | [] => (acc, [])
  | c :: rest =>
    if isDigitCh c then parseDigitsAux (acc * 10 + digitVal c) rest else (acc, c :: rest)

/-- Parse a JSON number (integer form) at the head of the input. -/
def parseNumAt : List Char → Option (Int × List Char)
  | [] => none
  | c :: rest =>
    if c = '-' then
      match rest with
      | [] => none
      | d :: rest2 =>
        if isDigitCh d then
          let r := parseDigitsAux (digitVal d) rest2
          some (-(r.1 : Int), r.2)
        else none
    else if isDigitCh c then
      let r := parseDigitsAux (digitVal c) rest
      some ((r.1 : Int), r.2)
    else none

/-- Decode one escape letter of a JSON string. -/
def unescChar (c : Char) : Option Char :=
  if c = '"' then some '"'
  else if c = '\\' then some '\\'
  else if c = '/' then some '/'
  else if c = 'n' then some '\n'
  else if c = 'r' then some '\r'
  else if c = 't' then some '\t'
  else if c = 'b' then some (Char.ofNat 8)
  else if c = 'f' then some (Char.ofNat 12)
  else none

/-- Value of a hexadecimal digit character. -/
def hexVal (c : Char) : Option Nat :=
  if 48 ≤ c.toNat && c.toNat ≤ 57 then some (c.toNat - 48)
  else if 97 ≤ c.toNat && c.toNat ≤ 102 then some (c.toNat - 87)
  else if 65 ≤ c.toNat && c.toNat ≤ 70 then some (c.toNat - 55)
  else none

/-- Parse the body of a JSON string literal after its opening quote,
returning the decoded characters and the input after the closing quote. -/
def parseStrBody : List Char → Option (List Char × List Char)
  | [] => none
  | c :: rest =>
    if c = '"' then some ([], rest)
    else if c = '\\' then
      match rest with
      | [] => none
      | e :: rest2 =>
        if e = 'u' then
          match rest2 with
          | h1 :: h2 :: h3 :: h4 :: rest3 =>
            match hexVal h1, hexVal h2, hexVal h3, hexVal h4 with
            | some a, some b, some c2, some d =>
              match parseStrBody rest3 with
              | some (content, r) =>
                some (Char.ofNat (((a * 16 + b) * 16 + c2) * 16 + d) :: content, r)
              | none => none
            | _, _, _, _ => none
          | _ => none
        else
          match unescChar e with
          | some u =>
            match parseStrBody rest2 with
            | some (content, r) => some (u :: content, r)
            | none => none
          | none => none
    else if c.toNat < 32 then none
    else
      match parseStrBody rest with
      | some (content, r) => some (c :: content, r)
      | none => none

/-- What the fuelled core parser is currently parsing. -/
inductive PJob where
  | val : PJob
  | arrT : PJob
  | objT : PJob

/-- Result of one core-parser job. -/
inductive PRes where
  | v : Json → PRes
  | items : List Json → PRes
  | fields : List (String × Json) → PRes

/-- Fuelled JSON parser core.  `PJob.val` parses one value; `PJob.arrT`
parses the non-empty element list of an array up to and including `]`;
`PJob.objT` parses the non-empty field list of an object up to and
including the closing curly bracket. -/
def parseCore : Nat → PJob → List Char → Option (PRes × List Char)
  | 0, _, _ => none
  | Nat.succ f, PJob.val, cs =>
    match skipWs cs with
    | [] => none
    | c :: rest =>
      if c = 'n' then
        match rest with
        | 'u' :: 'l' :: 'l' :: r => some (.v .null, r)
        | _ => none
      else if c = 't' then
        match rest with
        | 'r' :: 'u' :: 'e' :: r => some (.v (.bool true), r)
        | _ => none
      else if c = 'f' then
        match rest with
        | 'a' :: 'l' :: 's' :: 'e' :: r => some (.v (.bool false), r)
        | _ => none
      else if c = '"' then
        match parseStrBody rest with
        | some (content, r) => some (.v (.str ⟨content⟩), r)
        | none => none
      else if c = '[' then
        match skipWs rest with
        | [] => none
        | d :: r =>
          if d = ']' then some (.v (.arr []), r)
          else
            match parseCore f PJob.arrT (d :: r) with
            | some (PRes.items xs, r2) => some (.v (.arr xs), r2)
            | _ => none
      else if c = lcurl then
        match skipWs rest with
        | [] => none
        | d :: r =>
          if d = rcurl then some (.v (.obj []), r)
          else
            match parseCore f PJob.objT (d :: r) with
            | some (PRes.fields kvs, r2) => some (.v (.obj kvs), r2)
            | _ => none
      else
        match parseNumAt (c :: rest) with
        | some (n, r) => some (.v (.num n), r)
        | none => none
  | Nat.succ f, PJob.arrT, cs =>
    match parseCore f PJob.val cs with
    | some (PRes.v j, r) =>
      (match skipWs r with
       | [] => none
       | d :: r2 =>
         if d = ',' then
           match parseCore f PJob.arrT r2 with
           | some (PRes.items xs, r3) => some (PRes.items (j :: xs), r3)
           | _ => none
         else if d = ']' then some (PRes.items [j], r2)
         else none)
    | _ => none
  | Nat.succ f, PJob.objT, cs =>
    match skipWs cs with
    | [] => none
    | c :: rest =>
      if c = '"' then
        match parseStrBody rest with
        | some (key, r) =>
          (match skipWs r with
           | [] => none
           | d :: r2 =>
             if d = ':' then
               match parseCore f PJob.val r2 with
               | some (PRes.v j, r3) =>
                 (match skipWs r3 with
                  | [] => none
                  | d2 :: r4 =>
                    if d2 = ',' then
                      match parseCore f PJob.objT r4 with
                      | some (PRes.fields kvs, r5) => some (PRes.fields ((⟨key⟩, j) :: kvs), r5)
                      | _ => none
                    else if d2 = rcurl then some (PRes.fields [(⟨key⟩, j)], r4)
                    else none)
               | _ => none
             else none)
        | none => none
      else none

/-- Validate and parse one whole JSON document, as `json.Unmarshal` does on
the bytes of a wire line: one value, optionally surrounded by whitespace,
with nothing after it. -/
def jsonParse (cs : List Char) : Option Json :=
  match parseCore (cs.length + 1) PJob.val cs with
  | some (PRes.v j, r) => if skipWs r = [] then some j else none
  | _ => none

example : jsonParse "null".data = some Json.null := by rfl
example : jsonParse "[1,true]".data = some (Json.arr [Json.num 1, Json.bool true]) := by rfl
example : jsonParse " -42 ".data = some (Json.num (-42)) := by rfl
example : jsonParse "nul".data = none := by rfl
example : jsonParse "5x".data = none := by rfl

/-! ## Wire messages

Model of `jsonrpc2.Message` (Request, Notification as a Request with no id,
Response) and of `jsonrpc2.EncodeMessage` / `jsonrpc2.DecodeMessage`, which
`server.go`'s framer calls.  The id is carried as a raw JSON value, exactly
as the library stores the unmarshalled `id` field. -/

/-- A JSON-RPC error object (`wireError`): code, message, optional data. -/
structure WireError where
  code : Int
  message : String
  data : Option Json

/-- A wire message.  A `request` with `id = none` is a notification. -/
inductive Message where
  | request (method : String) (params : Option Json) (id : Option Json)
  | response (id : Json) (result : Option Json) (error : Option WireError)

/-- Errors of a single framed read, named after the code's failure branches. -/
inductive DecErr where
  | ctxCancelled
  | readFailed
  | emptyMessage
  | malformedJson
  | unmarshalError
  | invalidRequest
deriving DecidableEq

/-- One optional field of the combined wire object. -/
def optField (key : String) : Option Json → List (String × Json)
  | none => []
  | some j => [(key, j)]

/-- Encoding of a `wireError` into its JSON object. -/
def encodeWireError (e : WireError) : Json :=
  .obj ([("code", Json.num e.code), ("message", Json.str e.message)] ++ optField "data" e.data)

/-- `jsonrpc2.EncodeMessage`: build the combined wire object, with absent
optional fields omitted, in the field order of the wire struct. -/
def encodeMessage : Message → Json
  | .request m p i =>
    .obj ([("jsonrpc", Json.str "2.0")] ++ optField "id" i ++
      [("method", Json.str m)] ++ optField "params" p)
  | .response i r e =>
    .obj ([("jsonrpc", Json.str "2.0"), ("id", i)] ++ optField "result" r ++
      (match e with
       | none => []
       | some er => [("error", encodeWireError er)]))

/-- Last-occurrence field lookup, as `encoding/json` resolves repeated keys. -/
def jlookup (key : String) : List (String × Json) → Option Json
  | [] => none
  | (k, v) :: rest =>
    match jlookup key rest with
    | some r => some r
    | none => if k = key then some v else none

/-- Unmarshalling a JSON value into the `id` field of the wire struct:
a JSON `null` leaves the field nil, i.e. absent. -/
def idOfJson : Option Json → Option Json
  | none => none
  | some Json.null => none
  | some j => some j

/-- Unmarshalling the `method` field: it must be a string if present;
`null` and absence leave the zero value `""`. -/
def methodOfJson : Option Json → Except DecErr String
  | none => .ok ""
  | some Json.null => .ok ""
  | some (Json.str s) => .ok s
  | some _ => .error .unmarshalError

/-- Unmarshalling the `code` field of a wire error (an `int64`). -/
def codeOfJson : Option Json → Except DecErr Int
  | none => .ok 0
  | some Json.null => .ok 0
  | some (Json.num n) => .ok n
  | some _ => .error .unmarshalError

/-- Unmarshalling the `message` field of a wire error (a string). -/
def msgOfJson : Option Json → Except DecErr String
  | none => .ok ""
  | some Json.null => .ok ""
  | some (Json.str s) => .ok s
  | some _ => .error .unmarshalError

/-- Unmarshalling the `error` field into `*wireError`: `null` and absence
give a nil pointer; otherwise the value must be an object whose `code` and
`message` fields have the right types. -/
def wireErrorOfJson : Option Json → Except DecErr (Option WireError)
  | none => .ok none
  | some Json.null => .ok none
  | some (Json.obj efs) =>
    match codeOfJson (jlookup "code" efs), msgOfJson (jlookup "message" efs) with
    | .ok c, .ok m => .ok (some ⟨c, m, jlookup "data" efs⟩)
    | .error e, _ => .error e
    | _, .error e => .error e
  | some _ => .error .unmarshalError

/-- `jsonrpc2.DecodeMessage`: unmarshal the combined wire object (any type
mismatch fails), then classify — no method means a response, which must
carry an id; otherwise a request with an optional id. -/
def decodeMessage : Json → Except DecErr Message
  | .obj fields =>
    match methodOfJson (jlookup "method" fields) with
    | .error e => .error e
    | .ok method =>
      match wireErrorOfJson (jlookup "error" fields) with
      | .error e => .error e
      | .ok werr =>
        if method = "" then
          match idOfJson (jlookup "id" fields) with
          | none => .error .invalidRequest
          | some i => .ok (.response i (jlookup "result" fields) werr)
        else .ok (.request method (jlookup "params" fields) (idOfJson (jlookup "id" fields)))
  | _ => .error .unmarshalError

/-! ## Framing codec

Model of `newLineRawReader.Read` and `newLineRawWriter.Write` from
`server.go`.  The cancellation scope is a boolean: `true` means the
session's context is already done.  A read returns its outcome together
with the unconsumed remainder of the stream. -/

/-- `bufio.Reader.ReadString('\n')`: everything up to and including the
first newline; `none` if the stream ends first (the code turns any read
error into its `failed to read line` failure). -/
def readLine : List Char → Option (List Char × List Char)
  | [] => none
  | c :: cs =>
    if c = '\n' then some ([c], cs)
    else
      match readLine cs with
      | some (l, r) => some (c :: l, r)
      | none => none

/-- `strings.TrimSpace` on a line. -/
def trimList (cs : List Char) : List Char := (skipWs (skipWs cs).reverse).reverse

/-- `newLineRawReader.Read`: check the context, read one line, trim it,
reject a blank line, validate the JSON, then decode the message shape. -/
def decodeLine (cancelled : Bool) (input : List Char) : Except DecErr Message × List Char :=
  if cancelled then (.error .ctxCancelled, input)
  else
    match readLine input with
    | none => (.error .readFailed, [])
    | some (line, rest) =>
      let t := trimList line
      if t = [] then (.error .emptyMessage, rest)
      else
        match jsonParse t with
        | none => (.error .malformedJson, rest)
        | some j =>
          match decodeMessage j with
          | .error e => (.error e, rest)
          | .ok m => (.ok m, rest)

/-- The bytes `newLineRawWriter.Write` puts on the wire: the compact JSON
serialization of the message with exactly one appended newline. -/
def encodeFramed (m : Message) : List Char := serJson (encodeMessage m) ++ ['\n']

/-- `newLineRawWriter.Write`: check the context, then emit the framed bytes
as one single write. -/
def framedWrite (cancelled : Bool) (m : Message) : Except DecErr (List Char) :=
  if cancelled then .error .ctxCancelled else .ok (encodeFramed m)

example : decodeLine false "\n".data = (.error .emptyMessage, []) := by rfl
example : decodeLine false "   \nrest".data = (.error .emptyMessage, "rest".data) := by rfl
example : decodeLine false "not json\n".data = (.error .malformedJson, []) := by rfl
example : decodeLine true "x\n".data = (.error .ctxCancelled, "x\n".data) := by rfl
example : decodeLine false "abc".data = (.error .readFailed, []) := by rfl

/-! ## Proof-support measures on JSON values -/

mutual

/-- Recursion fuel needed to parse a serialized value. -/
def jsize : Json → Nat
  | .null => 1
  | .bool _ => 1
  | .num _ => 1
  | .str _ => 1
  | .arr xs => 1 + jsizeA xs
  | .obj kvs => 1 + jsizeO kvs

/-- Fuel needed to parse a serialized non-empty element list. -/
def jsizeA : List Json → Nat
  | [] => 0
  | x :: rest => 1 + jsize x + jsizeA rest

/-- Fuel needed to parse a serialized non-empty field list. -/
def jsizeO : List (String × Json) → Nat
  | [] => 0
  | (_, v) :: rest => 1 + jsize v + jsizeO rest

end

/-- Does the input not begin with a decimal digit?  (A number literal is
parsed greedily, so what follows it must not be a digit.) -/
def noDigitStart : List Char → Bool
  | [] => true
  | c :: _ => !isDigitCh c

/-- Is this JSON value the literal `null`? -/
def isNullJson : Json → Bool
  | .null => true
  | _ => false

/-- A message the wire contract calls valid: a request names a method, and
an id — mandatory on a response — is never the JSON `null` (an encoded
`null` id decodes as an absent one). -/
def validMessage : Message → Bool
  | .request m _ i =>
    (m != "") && !(match i with | none => false | some j => isNullJson j)
  | .response i _ _ => !isNullJson i

/-! ## Client operation layer

Model of `internal/client/client.go`.  The result/parameter record types of
the MCP methods are not under `src/` (only their uses are), so their fields
follow the specification's description of the initialize and list payloads.
The peer's reply to each call is an oracle argument (`Except String α` — the
awaited result or a call error), and each operation returns the list of
wire writes it performed, so that "no wire I/O" is the empty list. -/

/-- Modelled from the spec: an implementation identity (name and version),
as exchanged in the initialize payload. -/
structure Implementation where
  name : String
  version : String

/-- Modelled from the spec: a tool entry of a `tools/list` result. -/
structure Tool where
  name : String
  description : Option String

/-- Modelled from the spec: a resource entry of a `resources/list` result. -/
structure Resource where
  uri : String
  name : String

/-- Modelled from the spec: the `tools/list` result — a page of tools and
the optional next cursor carried in the server's response. -/
structure ListToolsResult where
  tools : List Tool
  nextCursor : Option String

/-- Modelled from the spec: the `resources/list` result. -/
structure ListResourcesResult where
  resources : List Resource
  nextCursor : Option String

/-- Modelled from the spec: the initialize result — the peer's identity,
protocol version and optional instructions. -/
structure InitResult where
  protocolVersion : String
  serverInfo : Implementation
  instructions : Option String

/-- Modelled from the spec: a `tools/call` result. -/
structure CallToolResult where
  content : List Json
  isError : Option Bool

/-- Errors surfaced by client operations.  `notInited` is the code's
`client not initialized` error; `sessionClosed` is the specification's
distinct `SessionClosedError` (no code path produces it); `callFailed`
wraps a call error with the operation's message prefix. -/
inductive ClientErr where
  | notInited
  | sessionClosed
  | callFailed (msg : String)
deriving DecidableEq

/-- One observable wire interaction of a client operation. -/
inductive WireEvent where
  | callSent (method : String)
  | respReceived
  | notifySent (method : String)
  | connClosed
deriving DecidableEq

/-- Outcome of a Go call: a value, a returned error, or a nil-pointer
dereference (the fate of a method call through a nil connection). -/
inductive GoResult (α : Type) where
  | ok (val : α)
  | err (e : ClientErr)
  | nilDeref

/-- The mutable state of the `client` struct that the modelled operations
read and write: the `initialized` flag, whether `conn` is non-nil, whether
the session context is already cancelled, whether the child process has
been observed to exit, and the stored server info. -/
structure ClientState where
  initedFlag : Bool
  connOpen : Bool
  ctxDone : Bool
  procExited : Bool
  srvInfo : Option InitResult

/-- `client.Ping`: gate on the `initialized` flag, then one call. -/
def ping (c : ClientState) (reply : Except String Unit) : GoResult Unit × List WireEvent :=
  if !c.initedFlag then (.err .notInited, [])
  else if !c.connOpen then (.nilDeref, [])
  else
    match reply with
    | .error e => (.err (.callFailed ("ping failed: " ++ e)), [.callSent "ping"])
    | .ok _ => (.ok (), [.callSent "ping", .respReceived])

/-- `client.ListTools`: gate, one `tools/list` call; the source returns
`result.Tools, nil, nil`, so the next cursor of the reply is dropped. -/
def listTools (c : ClientState) (reply : Except String ListToolsResult) :
    GoResult (List Tool × Option String) × List WireEvent :=
  if !c.initedFlag then (.err .notInited, [])
  else if !c.connOpen then (.nilDeref, [])
  else
    match reply with
    | .error e => (.err (.callFailed ("list tools failed: " ++ e)), [.callSent "tools/list"])
    | .ok r => (.ok (r.tools, none), [.callSent "tools/list", .respReceived])

/-- `client.ListResources`: gate, one `resources/list` call, returning
`result.Resources, result.NextCursor, nil`. -/
def listResources (c : ClientState) (reply : Except String ListResourcesResult) :
    GoResult (List Resource × Option String) × List WireEvent :=
  if !c.initedFlag then (.err .notInited, [])
  else if !c.connOpen then (.nilDeref, [])
  else
    match reply with
    | .error e =>
      (.err (.callFailed ("list resources failed: " ++ e)), [.callSent "resources/list"])
    | .ok r => (.ok (r.resources, r.nextCursor), [.callSent "resources/list", .respReceived])

/-- `client.ReadResource`: gate, one `resources/read` call. -/
def readResource (c : ClientState) (reply : Except String (List Json)) :
    GoResult (List Json) × List WireEvent :=
  if !c.initedFlag then (.err .notInited, [])
  else if !c.connOpen then (.nilDeref, [])
  else
    match reply with
    | .error e =>
      (.err (.callFailed ("read resource failed: " ++ e)), [.callSent "resources/read"])
    | .ok r => (.ok r, [.callSent "resources/read", .respReceived])

/-- `client.CallTool`: gate, one `tools/call` call. -/
def callTool (c : ClientState) (reply : Except String CallToolResult) :
    GoResult CallToolResult × List WireEvent :=
  if !c.initedFlag then (.err .notInited, [])
  else if !c.connOpen then (.nilDeref, [])
  else
    match reply with
    | .error e => (.err (.callFailed ("tool call failed: " ++ e)), [.callSent "tools/call"])
    | .ok r => (.ok r, [.callSent "tools/call", .respReceived])

/-- `client.Initialize`: not gated; calls `initialize` on the connection
(a nil dereference if the connection is gone), on success stores the
server info, sets the `initialized` flag, and only then sends the
`notifications/initialized` notification, whose own failure (`notifyOk =
false`) fails the operation after the state was already updated. -/
def initClient (c : ClientState) (reply : Except String InitResult) (notifyOk : Bool) :
    ClientState × GoResult InitResult × List WireEvent :=
  if !c.connOpen then (c, .nilDeref, [])
  else
    match reply with
    | .error e =>
      (c, .err (.callFailed ("initialize failed: " ++ e)), [.callSent "initialize"])
    | .ok r =>
      let c2 := { c with srvInfo := some r, initedFlag := true }
      if notifyOk then
        (c2, .ok r,
          [.callSent "initialize", .respReceived, .notifySent "notifications/initialized"])
      else
        (c2, .err (.callFailed "failed to send initialized notification"),
          [.callSent "initialize", .respReceived, .notifySent "notifications/initialized"])

/-- `client.Close`: clear the `initialized` flag; if a connection exists,
best-effort send the `exit` notification and close it; unless the context
is already done, cancel it and kill/wait the process if it has not exited;
return nil on every path. -/
def close (c : ClientState) : ClientState × Option ClientErr × List WireEvent :=
  let c1 := { c with initedFlag := false }
  let p :=
    if c1.connOpen then
      ({ c1 with connOpen := false }, [WireEvent.notifySent "exit", WireEvent.connClosed])
    else (c1, ([] : List WireEvent))
  let c3 := if p.1.ctxDone then p.1 else { p.1 with ctxDone := true, procExited := true }
  (c3, none, p.2)

/-! ## Pagination helper -/

/-- The loop of `FetchAll`, instrumented with the list of cursors passed to
`fetch` so far.  A fetch returns `(items, nextCursor, err)`, Go style.
`none` means the loop has not terminated within `fuel` iterations (the
source's loop has no bound of its own). -/
def fetchAllAux {T : Type} (fetch : Option String → List T × Option String × Option String) :
    Nat → Option String → List T → List (Option String) →
    Option ((List T × Option String) × List (Option String))
  | 0, _, _, _ => none
  | Nat.succ fuel, cursor, acc, calls =>
    let r := fetch cursor
    match r.2.2 with
    | some e => some (([], some ("fetch failed: " ++ e)), calls ++ [cursor])
    | none =>
      match r.2.1 with
      | none => some ((acc ++ r.1, none), calls ++ [cursor])
      | some cur => fetchAllAux fetch fuel (some cur) (acc ++ r.1) (calls ++ [cursor])

/-- `FetchAll`: thread the cursor from page to page, accumulate the items,
stop at the first absent next cursor; on a fetch error return nil items and
the wrapped error. -/
def FetchAll {T : Type} (fetch : Option String → List T × Option String × Option String)
    (fuel : Nat) : Option (List T × Option String) :=
  (fetchAllAux fetch fuel none [] []).map Prod.fst

/-- `PageChain fetch cursor pages`: starting from `cursor`, the fetches
succeed and produce exactly `pages`, each page's stored cursor feeding the
next fetch, the last page carrying no next cursor. -/
inductive PageChain {T : Type}
    (fetch : Option String → List T × Option String × Option String) :
    Option String → List (List T × Option String) → Prop
  | last (cursor : Option String) (items : List T) :
      fetch cursor = (items, none, none) → PageChain fetch cursor [(items, none)]
  | step (cursor : Option String) (items : List T) (c2 : String)
      (rest : List (List T × Option String)) :
      fetch cursor = (items, some c2, none) → PageChain fetch (some c2) rest →
      PageChain fetch cursor ((items, some c2) :: rest)

/-- `ErrFetchAt fetch cursor k e`: starting from `cursor`, the first `k - 1`
fetches succeed with a next cursor each, and the `k`-th fetch fails with
error `e`. -/
inductive ErrFetchAt {T : Type}
    (fetch : Option String → List T × Option String × Option String) :
    Option String → Nat → String → Prop
  | here (cursor : Option String) (items : List T) (nc : Option String) (e : String) :
      fetch cursor = (items, nc, some e) → ErrFetchAt fetch cursor 1 e
  | later (cursor : Option String) (items : List T) (c2 : String) (k : Nat) (e : String) :
      fetch cursor = (items, some c2, none) → ErrFetchAt fetch (some c2) k e →
      ErrFetchAt fetch cursor (k + 1) e

/-! ## Session correlation table

Modelled from the spec: the Session's pending-request mapping and response
dispatch ("a Response message whose id matches a Pending Request fulfills
that request (exactly once) and removes it from the mapping; a Response
with an unknown id is discarded").  The correlation logic itself lives in
the `golang.org/x/exp/jsonrpc2` dependency and is not under `src/`. -/

/-- Modelled from the spec: a response arriving on the wire, reduced to its
request id and an opaque payload. -/
structure WireResp where
  id : Nat
  payload : String
deriving DecidableEq

/-- Modelled from the spec: the Session's correlation state — the ids of
in-flight requests and the deliveries made so far (in delivery order). -/
structure SessionSt where
  pending : List Nat
  delivered : List (Nat × WireResp)
deriving DecidableEq

/-- Modelled from the spec: dispatch of one incoming response — deliver to
the matching pending request and remove its id, or discard it. -/
def dispatchOne (s : SessionSt) (r : WireResp) : SessionSt :=
  if r.id ∈ s.pending then
    ⟨s.pending.erase r.id, s.delivered ++ [(r.id, r)]⟩
  else s

/-- Modelled from the spec: dispatch of a whole arrival sequence. -/
def dispatchAll (s : SessionSt) (rs : List WireResp) : SessionSt := rs.foldl dispatchOne s

/-- The correlation invariant: deliveries match their ids, no id is
delivered twice, pending ids are distinct, and a delivered id is no longer
pending. -/
def SessionInv (s : SessionSt) : Prop :=
  (∀ p ∈ s.delivered, p.2.id = p.1) ∧
  (s.delivered.map Prod.fst).Nodup ∧
  s.pending.Nodup ∧
  (∀ i ∈ s.delivered.map Prod.fst, i ∉ s.pending)

/-- A two-page fetch fixture: page `(["a","b"], cursor1)`, then
`(["c"], nil)`; any other cursor fails. -/
def twoPageFetch : Option String → List String × Option String × Option String
  | none => (["a", "b"], some "cursor1", none)
  | some c => if c = "cursor1" then (["c"], none, none) else ([], none, some "bad")

/-- A fetch fixture whose first page succeeds with a next cursor and whose
second fetch fails. -/
def errPageFetch : Option String → List String × Option String × Option String
  | none => (["a"], some "c1", none)
  | some _ => ([], none, some "boom")

/-! # Lemmas: characters and digits -/

theorem skipWs_cons_notWs {c : Char} (l : List Char) (h : isWsChar c = false) :
    skipWs (c :: l) = c :: l := by
  simp [skipWs, h]

theorem digitChar_class : ∀ d : Nat, isDigitCh (digitChar d) = true ∧
    isWsChar (digitChar d) = false ∧ digitChar d ≠ ']' ∧ digitChar d ≠ rcurl ∧
    digitChar d ≠ ',' ∧ digitChar d ≠ '-' ∧ digitChar d ≠ '\n' := by
  intro d
  unfold digitChar
  split <;> decide

theorem digitChar_val : ∀ d : Nat, d < 10 → digitVal (digitChar d) = d := by decide

theorem isDigitCh_not_ws {c : Char} (h : isDigitCh c = true) : isWsChar c = false := by
  have hb : 48 ≤ c.toNat ∧ c.toNat ≤ 57 := by simpa [isDigitCh] using h
  have h1 : c ≠ ' ' := by rintro rfl; exact absurd hb (by decide)
  have h2 : c ≠ '\t' := by rintro rfl; exact absurd hb (by decide)
  have h3 : c ≠ '\n' := by rintro rfl; exact absurd hb (by decide)
  have h4 : c ≠ '\r' := by rintro rfl; exact absurd hb (by decide)
  simp [isWsChar, h1, h2, h3, h4]

theorem numStart_notKw {c : Char} (h : isDigitCh c = true ∨ c = '-') :
    c ≠ 'n' ∧ c ≠ 't' ∧ c ≠ 'f' ∧ c ≠ '"' ∧ c ≠ '[' ∧ c ≠ lcurl ∧ c ≠ ']' ∧
      isWsChar c = false := by
  rcases h with h | rfl
  · have hb : 48 ≤ c.toNat ∧ c.toNat ≤ 57 := by simpa [isDigitCh] using h
    refine ⟨?_, ?_, ?_, ?_, ?_, ?_, ?_, isDigitCh_not_ws h⟩ <;>
      (rintro rfl; exact absurd hb (by decide))
  · decide

theorem parseDigitsAux_stop {rest : List Char} (acc : Nat)
    (h : noDigitStart rest = true) : parseDigitsAux acc rest = (acc, rest) := by
  cases rest with
  | nil => simp [parseDigitsAux]
  | cons c cs =>
    simp [noDigitStart] at h
    simp [parseDigitsAux, h]

theorem parseDigitsAux_run (ds : List Nat) (h : ∀ d ∈ ds, d < 10) (acc : Nat)
    (rest : List Char) (hrest : noDigitStart rest = true) :
    parseDigitsAux acc (ds.map digitChar ++ rest) =
      (ds.foldl (fun a d => a * 10 + d) acc, rest) := by
  induction ds generalizing acc with
  | nil => simpa using parseDigitsAux_stop acc hrest
  | cons d ds ih =>
    have hdig := (digitChar_class d).1
    have hval := digitChar_val d (h d (by simp))
    simp only [List.map_cons, List.cons_append, parseDigitsAux, hdig, if_true, hval,
      List.foldl_cons]
    exact ih (fun x hx => h x (by simp [hx])) _

theorem foldr_ofDigits (l : List Nat) :
    l.foldr (fun d a => a * 10 + d) 0 = Nat.ofDigits 10 l := by
  induction l with
  | nil => simp [Nat.ofDigits_nil]
  | cons d t ih => simp [Nat.ofDigits_cons, ih]; ring

theorem foldl_digits_eq (n : Nat) :
    (Nat.digits 10 n).reverse.foldl (fun a d => a * 10 + d) 0 = n := by
  rw [List.foldl_reverse]
  have : (Nat.digits 10 n).foldr (fun d a => a * 10 + d) 0 = n := by
    rw [foldr_ofDigits, Nat.ofDigits_digits]
  simpa using this

theorem serNat_parse (m : Nat) (rest : List Char) (hrest : noDigitStart rest = true) :
    ∃ d t, serNat m ++ rest = d :: t ∧ isDigitCh d = true ∧ d ≠ '-' ∧
      parseDigitsAux (digitVal d) t = (m, rest) := by
  by_cases h0 : m = 0
  · subst h0
    refine ⟨'0', rest, by simp [serNat], by decide, by decide, ?_⟩
    simpa using parseDigitsAux_stop 0 hrest
  · have hne : Nat.digits 10 m ≠ [] := Nat.digits_ne_nil_iff_ne_zero.mpr h0
    obtain ⟨d, ds, hds⟩ := List.exists_cons_of_ne_nil (by simpa using hne :
      (Nat.digits 10 m).reverse ≠ [])
    have hlt : ∀ x ∈ (Nat.digits 10 m).reverse, x < 10 := by
      intro x hx
      exact Nat.digits_lt_base (by norm_num) (List.mem_reverse.mp hx)
    have hd10 : d < 10 := hlt d (by simp [hds])
    refine ⟨digitChar d, ds.map digitChar ++ rest, ?_, (digitChar_class d).1,
      (digitChar_class d).2.2.2.2.2.1, ?_⟩
    · simp [serNat, h0, natChars, hds]
    · rw [digitChar_val d hd10,
        parseDigitsAux_run ds (fun x hx => hlt x (by simp [hds, hx])) d rest hrest]
      have := foldl_digits_eq m
      rw [hds] at this
      simpa using this

theorem parseNumAt_serInt (n : Int) (rest : List Char) (hrest : noDigitStart rest = true) :
    parseNumAt (serInt n ++ rest) = some (n, rest) := by
  by_cases hneg : n < 0
  · have hm : (-n).toNat ≠ 0 := by omega
    obtain ⟨d, t, heq, hdig, hdash, hrun⟩ := serNat_parse (-n).toNat rest hrest
    have : serInt n ++ rest = '-' :: (serNat (-n).toNat ++ rest) := by
      simp [serInt, hneg]
    obtain ⟨m, hm2⟩ : ∃ m : Nat, (-n).toNat = m := ⟨_, rfl⟩
    rw [hm2] at hrun
    rw [this, heq]
    simp [parseNumAt, hdig, hrun]
    omega
  · obtain ⟨d, t, heq, hdig, hdash, hrun⟩ := serNat_parse n.toNat rest hrest
    have : serInt n ++ rest = serNat n.toNat ++ rest := by simp [serInt, hneg]
    obtain ⟨m, hm2⟩ : ∃ m : Nat, n.toNat = m := ⟨_, rfl⟩
    rw [hm2] at hrun
    rw [this, heq]
    simp [parseNumAt, hdash, hdig, hrun]
    omega

/-! # Lemmas: string literal round trip -/

theorem hexVal_hexDigitCh : ∀ m : Nat, m < 16 → hexVal (hexDigitCh m) = some m := by decide

theorem parseStrBody_esc (e u : Char) (l rest2 : List Char) (content : List Char)
    (h : unescChar e = some u) (hu : e ≠ 'u')
    (hl : parseStrBody l = some (content, rest2)) :
    parseStrBody ('\\' :: e :: l) = some (u :: content, rest2) := by
  have h2 : ('\\' : Char) ≠ '"' := by decide
  unfold parseStrBody
  simp [h2, hu, h, hl]

theorem parseStrBody_hex (h1 h2 h3 h4 : Char) (a b c2 d : Nat) (l rest2 : List Char)
    (content : List Char)
    (ha : hexVal h1 = some a) (hb : hexVal h2 = some b) (hc : hexVal h3 = some c2)
    (hd : hexVal h4 = some d) (hl : parseStrBody l = some (content, rest2)) :
    parseStrBody ('\\' :: 'u' :: h1 :: h2 :: h3 :: h4 :: l) =
      some (Char.ofNat (((a * 16 + b) * 16 + c2) * 16 + d) :: content, rest2) := by
  have hq : ('\\' : Char) ≠ '"' := by decide
  unfold parseStrBody
  simp [hq, ha, hb, hc, hd, hl]

theorem parseStrBody_lit (c : Char) (l rest2 : List Char) (content : List Char)
    (h1 : c ≠ '"') (h2 : c ≠ '\\') (h3 : ¬ c.toNat < 32)
    (hl : parseStrBody l = some (content, rest2)) :
    parseStrBody (c :: l) = some (c :: content, rest2) := by
  unfold parseStrBody
  simp [h1, h2, h3, hl]

theorem parseStrBody_ser (cs rest : List Char) :
    parseStrBody (serStringBody cs ++ '"' :: rest) = some (cs, rest) := by
  induction cs with
  | nil =>
    simp only [serStringBody, List.nil_append]
    unfold parseStrBody
    simp
  | cons c cs ih =>
    by_cases hq : c = '"'
    · subst hq
      have hser : serStringBody ('"' :: cs) = '\\' :: '"' :: serStringBody cs := rfl
      rw [hser]
      simp only [List.cons_append]
      exact parseStrBody_esc '"' '"' _ _ _ (by decide) (by decide) ih
    · by_cases hb : c = '\\'
      · subst hb
        have hser : serStringBody ('\\' :: cs) = '\\' :: '\\' :: serStringBody cs := rfl
        rw [hser]
        simp only [List.cons_append]
        exact parseStrBody_esc '\\' '\\' _ _ _ (by decide) (by decide) ih
      · by_cases hn : c = '\n'
        · subst hn
          have hser : serStringBody ('\n' :: cs) = '\\' :: 'n' :: serStringBody cs := rfl
          rw [hser]
          simp only [List.cons_append]
          exact parseStrBody_esc 'n' '\n' _ _ _ (by decide) (by decide) ih
        · by_cases hr : c = '\r'
          · subst hr
            have hser : serStringBody ('\r' :: cs) = '\\' :: 'r' :: serStringBody cs := rfl
            rw [hser]
            simp only [List.cons_append]
            exact parseStrBody_esc 'r' '\r' _ _ _ (by decide) (by decide) ih
          · by_cases ht : c = '\t'
            · subst ht
              have hser : serStringBody ('\t' :: cs) = '\\' :: 't' :: serStringBody cs := rfl
              rw [hser]
              simp only [List.cons_append]
              exact parseStrBody_esc 't' '\t' _ _ _ (by decide) (by decide) ih
            · by_cases hctl : c.toNat < 32
              · have hser : serStringBody (c :: cs) =
                    '\\' :: 'u' :: '0' :: '0' :: hexDigitCh (c.toNat / 16) ::
                      hexDigitCh (c.toNat % 16) :: serStringBody cs := by
                  simp [serStringBody, escChar, hq, hb, hn, hr, ht, hctl]
                rw [hser]
                simp only [List.cons_append]
                have hx := parseStrBody_hex '0' '0' (hexDigitCh (c.toNat / 16))
                  (hexDigitCh (c.toNat % 16)) 0 0 (c.toNat / 16) (c.toNat % 16) _ _ _
                  (by decide) (by decide)
                  (hexVal_hexDigitCh _ (by omega)) (hexVal_hexDigitCh _ (by omega)) ih
                rw [hx]
                have harith : ((0 * 16 + 0) * 16 + c.toNat / 16) * 16 + c.toNat % 16 =
                    c.toNat := by omega
                rw [harith, Char.ofNat_toNat]
              · have hser : serStringBody (c :: cs) = c :: serStringBody cs := by
                  simp [serStringBody, escChar, hq, hb, hn, hr, ht, hctl]
                rw [hser]
                simp only [List.cons_append]
                exact parseStrBody_lit c _ _ _ hq hb hctl ih

/-! # Lemmas: serializer shape -/

theorem serInt_head (n : Int) :
    ∃ c t, serInt n = c :: t ∧ (isDigitCh c = true ∨ c = '-') := by
  by_cases hneg : n < 0
  · exact ⟨'-', serNat (-n).toNat, by simp [serInt, hneg], Or.inr rfl⟩
  · obtain ⟨d, t, heq, hdig, hdash, hrun⟩ := serNat_parse n.toNat [] rfl
    refine ⟨d, t, ?_, Or.inl hdig⟩
    have : serInt n = serNat n.toNat := by simp [serInt, hneg]
    rw [this]
    simpa using heq

theorem ser_head (j : Json) :
    ∃ c t, serJson j = c :: t ∧ isWsChar c = false ∧ c ≠ ']' := by
  cases j with
  | null => exact ⟨'n', ['u', 'l', 'l'], by simp [serJson], by decide, by decide⟩
  | bool b =>
    cases b with
    | true => exact ⟨'t', ['r', 'u', 'e'], by simp [serJson], by decide, by decide⟩
    | false => exact ⟨'f', ['a', 'l', 's', 'e'], by simp [serJson], by decide, by decide⟩
  | num n =>
    obtain ⟨c, t, heq, hcls⟩ := serInt_head n
    have hkw := numStart_notKw hcls
    exact ⟨c, t, by simp [serJson, heq], hkw.2.2.2.2.2.2.2, hkw.2.2.2.2.2.2.1⟩
  | str s =>
    exact ⟨'"', serStringBody s.data ++ ['"'], by simp [serJson, serString], by decide,
      by decide⟩
  | arr xs => exact ⟨'[', serArrItems xs ++ [']'], by simp [serJson], by decide, by decide⟩
  | obj kvs =>
    exact ⟨lcurl, serObjItems kvs ++ [rcurl], by simp [serJson], by decide, by decide⟩

/-! # Lemmas: parser stepping -/

theorem parseCore_val_null (f : Nat) (l : List Char) :
    parseCore (f + 1) PJob.val ('n' :: 'u' :: 'l' :: 'l' :: l) =
      some (PRes.v Json.null, l) := rfl

theorem parseCore_val_true (f : Nat) (l : List Char) :
    parseCore (f + 1) PJob.val ('t' :: 'r' :: 'u' :: 'e' :: l) =
      some (PRes.v (Json.bool true), l) := rfl

theorem parseCore_val_false (f : Nat) (l : List Char) :
    parseCore (f + 1) PJob.val ('f' :: 'a' :: 'l' :: 's' :: 'e' :: l) =
      some (PRes.v (Json.bool false), l) := rfl

theorem parseCore_val_str (f : Nat) (l content r : List Char)
    (h : parseStrBody l = some (content, r)) :
    parseCore (f + 1) PJob.val ('"' :: l) = some (PRes.v (Json.str ⟨content⟩), r) := by
  have hstep : parseCore (f + 1) PJob.val ('"' :: l) =
      match parseStrBody l with
      | some (content, r) => some (PRes.v (Json.str ⟨content⟩), r)
      | none => none := rfl
  rw [hstep, h]

theorem parseCore_val_arr (f : Nat) (l : List Char) :
    parseCore (f + 1) PJob.val ('[' :: l) =
      (match skipWs l with
       | [] => none
       | d :: r =>
         if d = ']' then some (PRes.v (Json.arr []), r)
         else
           match parseCore f PJob.arrT (d :: r) with
           | some (PRes.items xs, r2) => some (PRes.v (Json.arr xs), r2)
           | _ => none) := rfl

theorem parseCore_val_obj (f : Nat) (l : List Char) :
    parseCore (f + 1) PJob.val (lcurl :: l) =
      (match skipWs l with
       | [] => none
       | d :: r =>
         if d = rcurl then some (PRes.v (Json.obj []), r)
         else
           match parseCore f PJob.objT (d :: r) with
           | some (PRes.fields kvs, r2) => some (PRes.v (Json.obj kvs), r2)
           | _ => none) := rfl

theorem parseCore_arrT_eq (f : Nat) (cs : List Char) :
    parseCore (f + 1) PJob.arrT cs =
      (match parseCore f PJob.val cs with
       | some (PRes.v j, r) =>
         (match skipWs r with
          | [] => none
          | d :: r2 =>
            if d = ',' then
              match parseCore f PJob.arrT r2 with
              | some (PRes.items xs, r3) => some (PRes.items (j :: xs), r3)
              | _ => none
            else if d = ']' then some (PRes.items [j], r2)
            else none)
       | _ => none) := rfl

theorem parseCore_objT_eq (f : Nat) (l : List Char) :
    parseCore (f + 1) PJob.objT ('"' :: l) =
      (match parseStrBody l with
       | some (key, r) =>
         (match skipWs r with
          | [] => none
          | d :: r2 =>
            if d = ':' then
              match parseCore f PJob.val r2 with
              | some (PRes.v j, r3) =>
                (match skipWs r3 with
                 | [] => none
                 | d2 :: r4 =>
                   if d2 = ',' then
                     match parseCore f PJob.objT r4 with
                     | some (PRes.fields kvs, r5) => some (PRes.fields ((⟨key⟩, j) :: kvs), r5)
                     | _ => none
                   else if d2 = rcurl then some (PRes.fields [(⟨key⟩, j)], r4)
                   else none)
              | _ => none
            else none)
       | none => none) := rfl

theorem parseCore_val_default (f : Nat) (c : Char) (l : List Char)
    (hws : isWsChar c = false) (h1 : c ≠ 'n') (h2 : c ≠ 't') (h3 : c ≠ 'f')
    (h4 : c ≠ '"') (h5 : c ≠ '[') (h6 : c ≠ lcurl) :
    parseCore (f + 1) PJob.val (c :: l) =
      (match parseNumAt (c :: l) with
       | some (n, r) => some (PRes.v (Json.num n), r)
       | none => none) := by
  unfold parseCore
  rw [skipWs_cons_notWs _ hws]
  simp [h1, h2, h3, h4, h5, h6]

theorem jsize_pos : ∀ j : Json, 1 ≤ jsize j := by
  intro j
  cases j <;> simp [jsize]

mutual

theorem parse_ser_val : ∀ (j : Json) (f : Nat) (rest : List Char),
    jsize j ≤ f → noDigitStart rest = true →
    parseCore f PJob.val (serJson j ++ rest) = some (PRes.v j, rest)
  | Json.null, f, rest, hf, _ => by
    cases f with
    | zero => exact absurd hf (by have := jsize_pos Json.null; omega)
    | succ f =>
      have hs : serJson Json.null ++ rest = 'n' :: 'u' :: 'l' :: 'l' :: rest := by
        simp [serJson]
      rw [hs]
      exact parseCore_val_null f rest
  | Json.bool true, f, rest, hf, _ => by
    cases f with
    | zero => exact absurd hf (by have := jsize_pos (Json.bool true); omega)
    | succ f =>
      have hs : serJson (Json.bool true) ++ rest = 't' :: 'r' :: 'u' :: 'e' :: rest := by
        simp [serJson]
      rw [hs]
      exact parseCore_val_true f rest
  | Json.bool false, f, rest, hf, _ => by
    cases f with
    | zero => exact absurd hf (by have := jsize_pos (Json.bool false); omega)
    | succ f =>
      have hs : serJson (Json.bool false) ++ rest = 'f' :: 'a' :: 'l' :: 's' :: 'e' :: rest := by
        simp [serJson]
      rw [hs]
      exact parseCore_val_false f rest
  | Json.num n, f, rest, hf, hrest => by
    cases f with
    | zero => exact absurd hf (by have := jsize_pos (Json.num n); omega)
    | succ f =>
      obtain ⟨c, t, heq, hcls⟩ := serInt_head n
      have hkw := numStart_notKw hcls
      have hs : serJson (Json.num n) ++ rest = c :: (t ++ rest) := by
        simp [serJson, heq]
      rw [hs]
      rw [parseCore_val_default f c _ hkw.2.2.2.2.2.2.2 hkw.1 hkw.2.1 hkw.2.2.1
        hkw.2.2.2.1 hkw.2.2.2.2.1 hkw.2.2.2.2.2.1]
      have hnum : parseNumAt (c :: (t ++ rest)) = some (n, rest) := by
        have hp := parseNumAt_serInt n rest hrest
        rw [heq] at hp
        simpa using hp
      rw [hnum]
  | Json.str s, f, rest, hf, _ => by
    cases f with
    | zero => exact absurd hf (by have := jsize_pos (Json.str s); omega)
    | succ f =>
      have hs : serJson (Json.str s) ++ rest =
          '"' :: (serStringBody s.data ++ '"' :: rest) := by
        simp [serJson, serString]
      rw [hs]
      exact parseCore_val_str f _ s.data rest (parseStrBody_ser s.data rest)
  | Json.arr xs, f, rest, hf, _ => by
    cases f with
    | zero => exact absurd hf (by have := jsize_pos (Json.arr xs); omega)
    | succ f =>
      have hfA : jsizeA xs ≤ f := by
        have h2 : jsize (Json.arr xs) = 1 + jsizeA xs := by simp [jsize]
        omega
      have hs : serJson (Json.arr xs) ++ rest = '[' :: (serArrItems xs ++ ']' :: rest) := by
        simp [serJson]
      rw [hs, parseCore_val_arr]
      cases xs with
      | nil => simp [serArrItems, skipWs, isWsChar]
      | cons x xs2 =>
        obtain ⟨c, t, hx, hws, hnb⟩ := ser_head x
        obtain ⟨tail, htail⟩ : ∃ tail, serArrItems (x :: xs2) ++ ']' :: rest = c :: tail := by
          cases xs2 with
          | nil => exact ⟨t ++ ']' :: rest, by simp [serArrItems, hx]⟩
          | cons y ys =>
            exact ⟨t ++ ',' :: serArrItems (y :: ys) ++ ']' :: rest,
              by simp [serArrItems, hx]⟩
        have hrec := parse_ser_arrT (x :: xs2) f rest (by simp) hfA
        rw [htail] at hrec ⊢
        rw [skipWs_cons_notWs _ hws]
        simp [hnb, hrec]
  | Json.obj kvs, f, rest, hf, _ => by
    cases f with
    | zero => exact absurd hf (by have := jsize_pos (Json.obj kvs); omega)
    | succ f =>
      have hfO : jsizeO kvs ≤ f := by
        have h2 : jsize (Json.obj kvs) = 1 + jsizeO kvs := by simp [jsize]
        omega
      have hs : serJson (Json.obj kvs) ++ rest =
          lcurl :: (serObjItems kvs ++ rcurl :: rest) := by
        simp [serJson]
      rw [hs, parseCore_val_obj]
      cases kvs with
      | nil => simp [serObjItems, skipWs, isWsChar, rcurl]
      | cons kv kvs2 =>
        obtain ⟨k, v⟩ := kv
        obtain ⟨tail, htail⟩ : ∃ tail,
            serObjItems ((k, v) :: kvs2) ++ rcurl :: rest = '"' :: tail := by
          cases kvs2 with
          | nil =>
            exact ⟨serStringBody k.data ++ '"' :: (':' :: serJson v) ++ rcurl :: rest,
              by simp [serObjItems, serString]⟩
          | cons p ps =>
            exact ⟨serStringBody k.data ++
              '"' :: (':' :: serJson v ++ ',' :: serObjItems (p :: ps)) ++ rcurl :: rest,
              by simp [serObjItems, serString]⟩
        have hrec := parse_ser_objT ((k, v) :: kvs2) f rest (by simp) hfO
        rw [htail] at hrec ⊢
        rw [skipWs_cons_notWs _ (by decide)]
        have hne : ('"' : Char) ≠ rcurl := by decide
        simp [hne, hrec]

theorem parse_ser_arrT : ∀ (xs : List Json) (f : Nat) (rest : List Char),
    xs ≠ [] → jsizeA xs ≤ f →
    parseCore f PJob.arrT (serArrItems xs ++ ']' :: rest) = some (PRes.items xs, rest)
  | [], _, _, hne, _ => absurd rfl hne
  | [x], f, rest, _, hf => by
    cases f with
    | zero =>
      exact absurd hf (by have := jsize_pos x; simp [jsizeA])
    | succ f =>
      have hfx : jsize x ≤ f := by
        have h2 : jsizeA [x] = 1 + jsize x + jsizeA [] := by simp [jsizeA]
        have h3 : jsizeA ([] : List Json) = 0 := by simp [jsizeA]
        omega
      rw [parseCore_arrT_eq]
      have h1 : serArrItems [x] ++ ']' :: rest = serJson x ++ ']' :: rest := by
        simp [serArrItems]
      rw [h1, parse_ser_val x f (']' :: rest) hfx rfl]
      simp [skipWs, isWsChar]
  | x :: y :: ys, f, rest, _, hf => by
    cases f with
    | zero =>
      exact absurd hf (by have := jsize_pos x; simp [jsizeA])
    | succ f =>
      have hfx : jsize x ≤ f := by
        have h2 : jsizeA (x :: y :: ys) = 1 + jsize x + jsizeA (y :: ys) := by simp [jsizeA]
        omega
      have hfr : jsizeA (y :: ys) ≤ f := by
        have h2 : jsizeA (x :: y :: ys) = 1 + jsize x + jsizeA (y :: ys) := by simp [jsizeA]
        omega
      rw [parseCore_arrT_eq]
      have h1 : serArrItems (x :: y :: ys) ++ ']' :: rest =
          serJson x ++ ',' :: (serArrItems (y :: ys) ++ ']' :: rest) := by
        simp [serArrItems]
      rw [h1, parse_ser_val x f (',' :: (serArrItems (y :: ys) ++ ']' :: rest)) hfx rfl]
      have hrec := parse_ser_arrT (y :: ys) f rest (by simp) hfr
      simp [skipWs, isWsChar, hrec]

theorem parse_ser_objT : ∀ (kvs : List (String × Json)) (f : Nat) (rest : List Char),
    kvs ≠ [] → jsizeO kvs ≤ f →
    parseCore f PJob.objT (serObjItems kvs ++ rcurl :: rest) = some (PRes.fields kvs, rest)
  | [], _, _, hne, _ => absurd rfl hne
  | [(k, v)], f, rest, _, hf => by
    cases f with
    | zero =>
      exact absurd hf (by have := jsize_pos v; simp [jsizeO])
    | succ f =>
      have hfv : jsize v ≤ f := by
        have h2 : jsizeO [(k, v)] = 1 + jsize v + jsizeO [] := by simp [jsizeO]
        have h3 : jsizeO ([] : List (String × Json)) = 0 := by simp [jsizeO]
        omega
      have h1 : serObjItems [(k, v)] ++ rcurl :: rest =
          '"' :: (serStringBody k.data ++ '"' :: (':' :: (serJson v ++ rcurl :: rest))) := by
        simp [serObjItems, serString]
      rw [h1, parseCore_objT_eq, parseStrBody_ser k.data]
      have hv := parse_ser_val v f (rcurl :: rest) hfv rfl
      have hsw : skipWs (':' :: (serJson v ++ rcurl :: rest)) =
          ':' :: (serJson v ++ rcurl :: rest) := skipWs_cons_notWs _ (by decide)
      have hswr : skipWs (rcurl :: rest) = rcurl :: rest := skipWs_cons_notWs _ (by decide)
      have hcomma : (rcurl = ',') = False := by decide
      simp [hsw, hv, hswr, hcomma]
  | (k, v) :: p :: ps, f, rest, _, hf => by
    cases f with
    | zero =>
      exact absurd hf (by have := jsize_pos v; simp [jsizeO])
    | succ f =>
      have hfv : jsize v ≤ f := by
        have h2 : jsizeO ((k, v) :: p :: ps) = 1 + jsize v + jsizeO (p :: ps) := by
          simp [jsizeO]
        omega
      have hfr : jsizeO (p :: ps) ≤ f := by
        have h2 : jsizeO ((k, v) :: p :: ps) = 1 + jsize v + jsizeO (p :: ps) := by
          simp [jsizeO]
        omega
      have h1 : serObjItems ((k, v) :: p :: ps) ++ rcurl :: rest =
          '"' :: (serStringBody k.data ++
            '"' :: (':' :: (serJson v ++ ',' :: (serObjItems (p :: ps) ++ rcurl :: rest)))) := by
        simp [serObjItems, serString]
      rw [h1, parseCore_objT_eq, parseStrBody_ser k.data]
      have hv := parse_ser_val v f (',' :: (serObjItems (p :: ps) ++ rcurl :: rest)) hfv rfl
      have hrec := parse_ser_objT (p :: ps) f rest (by simp) hfr
      have hsw : skipWs (':' :: (serJson v ++ ',' :: (serObjItems (p :: ps) ++ rcurl :: rest))) =
          ':' :: (serJson v ++ ',' :: (serObjItems (p :: ps) ++ rcurl :: rest)) :=
        skipWs_cons_notWs _ (by decide)
      simp [hsw, hv, skipWs, isWsChar, hrec]

end

/-! # Lemmas: fuel bound, newline freedom, framing -/

theorem serInt_ne_nil (n : Int) : serInt n ≠ [] := by
  obtain ⟨c, t, heq, _⟩ := serInt_head n
  simp [heq]

mutual

theorem jsize_le_len : ∀ j : Json, jsize j ≤ (serJson j).length
  | Json.null => by simp [jsize, serJson]
  | Json.bool true => by simp [jsize, serJson]
  | Json.bool false => by simp [jsize, serJson]
  | Json.num n => by
    obtain ⟨c, t, heq, _⟩ := serInt_head n
    simp [jsize, serJson, heq]
  | Json.str s => by simp [jsize, serJson, serString]
  | Json.arr xs => by
    have h := jsizeA_le_len xs
    simp only [jsize, serJson, List.length_cons, List.length_append, List.length_singleton]
    omega
  | Json.obj kvs => by
    have h := jsizeO_le_len kvs
    simp only [jsize, serJson, List.length_cons, List.length_append, List.length_singleton]
    omega

theorem jsizeA_le_len : ∀ xs : List Json, jsizeA xs ≤ (serArrItems xs).length + 1
  | [] => by simp [jsizeA]
  | [x] => by
    have h := jsize_le_len x
    simp only [jsizeA, serArrItems, List.length_nil]
    omega
  | x :: y :: ys => by
    have h1 := jsize_le_len x
    have h2 := jsizeA_le_len (y :: ys)
    simp only [jsizeA] at h2 ⊢
    simp only [serArrItems, List.length_append, List.length_cons]
    omega

theorem jsizeO_le_len : ∀ kvs : List (String × Json),
    jsizeO kvs ≤ (serObjItems kvs).length + 1
  | [] => by simp [jsizeO]
  | [(k, v)] => by
    have h := jsize_le_len v
    simp only [jsizeO, serObjItems, List.length_append, List.length_cons, List.length_nil]
    omega
  | (k, v) :: p :: ps => by
    have h1 := jsize_le_len v
    have h2 := jsizeO_le_len (p :: ps)
    simp only [jsizeO] at h2 ⊢
    simp only [serObjItems, List.length_append, List.length_cons]
    omega

end

theorem jsonParse_ser (j : Json) : jsonParse (serJson j) = some j := by
  unfold jsonParse
  have hlen := jsize_le_len j
  have hp := parse_ser_val j ((serJson j).length + 1) [] (by omega) rfl
  rw [List.append_nil] at hp
  rw [hp]
  simp [skipWs]

theorem hexDigitCh_ne_nl : ∀ m : Nat, hexDigitCh m ≠ '\n' := by
  intro m
  unfold hexDigitCh
  split <;> decide

theorem escChar_no_nl (c : Char) : '\n' ∉ escChar c := by
  unfold escChar
  split_ifs with h1 h2 h3 h4 h5 h6
  · decide
  · decide
  · decide
  · decide
  · decide
  · intro hmem
    simp only [List.mem_cons, List.not_mem_nil, or_false] at hmem
    rcases hmem with h | h | h | h | h | h
    · exact absurd h (by decide)
    · exact absurd h (by decide)
    · exact absurd h (by decide)
    · exact absurd h (by decide)
    · exact hexDigitCh_ne_nl _ h.symm
    · exact hexDigitCh_ne_nl _ h.symm
  · intro hmem
    simp only [List.mem_singleton] at hmem
    exact h3 hmem.symm

theorem serStringBody_no_nl (cs : List Char) : '\n' ∉ serStringBody cs := by
  induction cs with
  | nil => simp [serStringBody]
  | cons c cs ih =>
    simp only [serStringBody, List.mem_append]
    rintro (h | h)
    · exact escChar_no_nl c h
    · exact ih h

theorem serNat_no_nl (m : Nat) : '\n' ∉ serNat m := by
  unfold serNat
  split
  · decide
  · unfold natChars
    intro hmem
    obtain ⟨d, _, hd⟩ := List.mem_map.mp hmem
    exact (digitChar_class d).2.2.2.2.2.2 hd

theorem serInt_no_nl (n : Int) : '\n' ∉ serInt n := by
  unfold serInt
  split
  · simp only [List.mem_cons]
    rintro (h | h)
    · exact absurd h (by decide)
    · exact serNat_no_nl _ h
  · exact serNat_no_nl _

mutual

theorem serJson_no_nl : ∀ j : Json, '\n' ∉ serJson j
  | Json.null => by simp [serJson]
  | Json.bool true => by simp [serJson]
  | Json.bool false => by simp [serJson]
  | Json.num n => by
    simp only [serJson]
    exact serInt_no_nl n
  | Json.str s => by
    have hb := serStringBody_no_nl s.data
    simp [serJson, serString, hb]
  | Json.arr xs => by
    have hb := serArrItems_no_nl xs
    simp [serJson, hb]
  | Json.obj kvs => by
    have hb := serObjItems_no_nl kvs
    simp [serJson, hb, lcurl, rcurl]

theorem serArrItems_no_nl : ∀ xs : List Json, '\n' ∉ serArrItems xs
  | [] => by simp [serArrItems]
  | [x] => by
    simp only [serArrItems]
    exact serJson_no_nl x
  | x :: y :: ys => by
    have h1 := serJson_no_nl x
    have h2 := serArrItems_no_nl (y :: ys)
    simp [serArrItems, h1, h2]

theorem serObjItems_no_nl : ∀ kvs : List (String × Json), '\n' ∉ serObjItems kvs
  | [] => by simp [serObjItems]
  | [(k, v)] => by
    have h1 := serStringBody_no_nl k.data
    have h2 := serJson_no_nl v
    simp [serObjItems, serString, h1, h2]
  | (k, v) :: p :: ps => by
    have h1 := serStringBody_no_nl k.data
    have h2 := serJson_no_nl v
    have h3 := serObjItems_no_nl (p :: ps)
    simp [serObjItems, serString, h1, h2, h3]

end

theorem readLine_append (s rest : List Char) (h : '\n' ∉ s) :
    readLine (s ++ '\n' :: rest) = some (s ++ ['\n'], rest) := by
  induction s with
  | nil => simp [readLine]
  | cons c cs ih =>
    have hc : c ≠ '\n' := by
      intro heq
      exact h (by simp [heq])
    have ih2 := ih (fun hm => h (by simp [hm]))
    simp only [List.cons_append, readLine, hc, if_false, List.append_eq, ih2]

theorem trimList_line (l : List Char)
    (hhead : ∃ c t, l = c :: t ∧ isWsChar c = false)
    (hlast : ∃ c t, l.reverse = c :: t ∧ isWsChar c = false) :
    trimList (l ++ ['\n']) = l := by
  obtain ⟨c, t, hl, hcw⟩ := hhead
  obtain ⟨c2, t2, hl2, hcw2⟩ := hlast
  unfold trimList
  have h1 : skipWs (l ++ ['\n']) = l ++ ['\n'] := by
    rw [hl]
    exact skipWs_cons_notWs _ hcw
  rw [h1]
  have h2 : (l ++ ['\n']).reverse = '\n' :: l.reverse := by simp
  rw [h2]
  have h3 : skipWs ('\n' :: l.reverse) = skipWs l.reverse := by simp [skipWs, isWsChar]
  rw [h3, hl2, skipWs_cons_notWs _ hcw2, ← hl2]
  simp

/-! # Lemmas: message encode/decode round trip -/

theorem idOfJson_some (j : Json) (h : isNullJson j = false) : idOfJson (some j) = some j := by
  cases j <;> simp_all [idOfJson, isNullJson]

theorem decode_encode (m : Message) (h : validMessage m = true) :
    decodeMessage (encodeMessage m) = .ok m := by
  cases m with
  | request mth p i =>
    have hm : mth ≠ "" := by
      simp [validMessage] at h
      exact h.1
    cases i with
    | none =>
      cases p with
      | none =>
        simp [encodeMessage, optField, decodeMessage, jlookup, methodOfJson,
          wireErrorOfJson, idOfJson, hm]
      | some pj =>
        simp [encodeMessage, optField, decodeMessage, jlookup, methodOfJson,
          wireErrorOfJson, idOfJson, hm]
    | some ij =>
      have hi : isNullJson ij = false := by
        simp [validMessage] at h
        exact h.2
      cases p with
      | none =>
        simp [encodeMessage, optField, decodeMessage, jlookup, methodOfJson,
          wireErrorOfJson, idOfJson_some ij hi, hm]
      | some pj =>
        simp [encodeMessage, optField, decodeMessage, jlookup, methodOfJson,
          wireErrorOfJson, idOfJson_some ij hi, hm]
  | response i r e =>
    have hi : isNullJson i = false := by simpa [validMessage] using h
    cases r with
    | none =>
      cases e with
      | none =>
        simp [encodeMessage, optField, decodeMessage, jlookup, methodOfJson,
          wireErrorOfJson, idOfJson_some i hi]
      | some er =>
        obtain ⟨ec, em, ed⟩ := er
        cases ed with
        | none =>
          simp [encodeMessage, optField, decodeMessage, jlookup, methodOfJson,
            wireErrorOfJson, encodeWireError, codeOfJson, msgOfJson,
            idOfJson_some i hi]
        | some dj =>
          simp [encodeMessage, optField, decodeMessage, jlookup, methodOfJson,
            wireErrorOfJson, encodeWireError, codeOfJson, msgOfJson,
            idOfJson_some i hi]
    | some rj =>
      cases e with
      | none =>
        simp [encodeMessage, optField, decodeMessage, jlookup, methodOfJson,
          wireErrorOfJson, idOfJson_some i hi]
      | some er =>
        obtain ⟨ec, em, ed⟩ := er
        cases ed with
        | none =>
          simp [encodeMessage, optField, decodeMessage, jlookup, methodOfJson,
            wireErrorOfJson, encodeWireError, codeOfJson, msgOfJson,
            idOfJson_some i hi]
        | some dj =>
          simp [encodeMessage, optField, decodeMessage, jlookup, methodOfJson,
            wireErrorOfJson, encodeWireError, codeOfJson, msgOfJson,
            idOfJson_some i hi]

theorem encodeMessage_obj (m : Message) : ∃ fields, encodeMessage m = Json.obj fields := by
  cases m with
  | request mth p i => exact ⟨_, rfl⟩
  | response i r e => exact ⟨_, rfl⟩

/-- C7: for every valid Message (Request, Notification as an id-less Request,
or Response, with any absent optional fields), the framed encoding is the
compact JSON serialization followed by exactly one newline, and a framed
decode of those bytes yields the message back with the stream exhausted. -/
theorem c7_encode_decode_roundtrip (m : Message) (h : validMessage m = true) :
    framedWrite false m = .ok (serJson (encodeMessage m) ++ ['\n']) ∧
    decodeLine false (encodeFramed m) = (.ok m, []) := by
  constructor
  · rfl
  · obtain ⟨fields, hobj⟩ := encodeMessage_obj m
    have hnl := serJson_no_nl (encodeMessage m)
    have hread : readLine (serJson (encodeMessage m) ++ '\n' :: []) =
        some (serJson (encodeMessage m) ++ ['\n'], []) :=
      readLine_append _ [] hnl
    obtain ⟨c, t, hhead, hws, hnb⟩ := ser_head (encodeMessage m)
    have hlast : (serJson (encodeMessage m)).reverse =
        rcurl :: ((serObjItems fields).reverse ++ [lcurl]) := by
      rw [hobj]
      simp [serJson]
    have htrim : trimList (serJson (encodeMessage m) ++ ['\n']) =
        serJson (encodeMessage m) :=
      trimList_line _ ⟨c, t, hhead, hws⟩ ⟨rcurl, _, hlast, by decide⟩
    have hne : serJson (encodeMessage m) ≠ [] := by
      rw [hhead]
      simp
    have hparse := jsonParse_ser (encodeMessage m)
    have hdec := decode_encode m h
    simp [decodeLine, encodeFramed, hread, htrim, hne, hparse, hdec]

theorem c7_encode_decode_roundtrip_witness :
    validMessage (Message.request "ping" none (some (Json.num 3))) = true ∧
    (framedWrite false (Message.request "ping" none (some (Json.num 3))) =
      .ok (serJson (encodeMessage (Message.request "ping" none (some (Json.num 3)))) ++
        ['\n']) ∧
    decodeLine false (encodeFramed (Message.request "ping" none (some (Json.num 3)))) =
      (.ok (Message.request "ping" none (some (Json.num 3))), [])) :=
  ⟨by rfl, c7_encode_decode_roundtrip _ (by rfl)⟩

/-- C6 counterexample: the two-character line of an empty JSON object is
valid JSON, the line is not blank and the scope is not cancelled, yet the
decode does not yield a Message: `jsonrpc2.DecodeMessage` rejects an object
with no method and no id, so the read fails with its invalid-request error
where the claim requires a decoded Message. -/
theorem c6_counterexample :
    jsonParse (trimList (lcurl :: rcurl :: '\n' :: [])) = some (Json.obj []) ∧
    decodeLine false (lcurl :: rcurl :: '\n' :: []) =
      (.error DecErr.invalidRequest, []) := by
  exact ⟨rfl, rfl⟩

/-- C6 (amended): a framed decode returns the cancellation error without
consuming input when the scope is already cancelled; fails with the
read-failure when no complete line is available; fails with
`empty message` on a blank line; fails with the malformed-JSON error when
the line is not valid JSON; and otherwise decodes the generic Message
shape, which can itself still fail (for valid JSON that is not a
Request/Notification/Response), yielding the decoded Message exactly when
the shape decode succeeds. -/
theorem c6_decode_branches (input line rest : List Char) :
    (decodeLine true input = (.error DecErr.ctxCancelled, input)) ∧
    (readLine input = none → decodeLine false input = (.error DecErr.readFailed, [])) ∧
    (readLine input = some (line, rest) → trimList line = [] →
      decodeLine false input = (.error DecErr.emptyMessage, rest)) ∧
    (readLine input = some (line, rest) → trimList line ≠ [] →
      jsonParse (trimList line) = none →
      decodeLine false input = (.error DecErr.malformedJson, rest)) ∧
    (∀ j e, readLine input = some (line, rest) → jsonParse (trimList line) = some j →
      decodeMessage j = .error e → decodeLine false input = (.error e, rest)) ∧
    (∀ j m, readLine input = some (line, rest) → jsonParse (trimList line) = some j →
      decodeMessage j = .ok m → decodeLine false input = (.ok m, rest)) := by
  refine ⟨rfl, ?_, ?_, ?_, ?_, ?_⟩
  · intro hr
    simp [decodeLine, hr]
  · intro hr ht
    simp [decodeLine, hr, ht]
  · intro hr ht hp
    simp [decodeLine, hr, ht, hp]
  · intro j e hr hp hd
    have ht : trimList line ≠ [] := by
      intro hteq
      rw [hteq] at hp
      exact absurd hp (by simp [jsonParse, parseCore, skipWs])
    simp [decodeLine, hr, ht, hp, hd]
  · intro j m hr hp hd
    have ht : trimList line ≠ [] := by
      intro hteq
      rw [hteq] at hp
      exact absurd hp (by simp [jsonParse, parseCore, skipWs])
    simp [decodeLine, hr, ht, hp, hd]

theorem c6_decode_branches_witness :
    readLine ('\n' :: []) = some (['\n'], []) ∧ trimList ['\n'] = [] ∧
    decodeLine false ('\n' :: []) = (.error DecErr.emptyMessage, []) :=
  ⟨rfl, rfl, (c6_decode_branches ('\n' :: []) ['\n'] []).2.2.1 rfl rfl⟩

/-- C1: before a successful Initialize (the `initialized` flag is unset),
every gated operation — Ping, ListTools, ListResources, ReadResource,
CallTool — fails immediately with the not-initialized error and performs
zero wire writes, whatever reply the transport might have given. -/
theorem c1_gated_ops_before_init (c : ClientState) (h : c.initedFlag = false)
    (r1 : Except String Unit) (r2 : Except String ListToolsResult)
    (r3 : Except String ListResourcesResult) (r4 : Except String (List Json))
    (r5 : Except String CallToolResult) :
    ping c r1 = (.err .notInited, []) ∧
    listTools c r2 = (.err .notInited, []) ∧
    listResources c r3 = (.err .notInited, []) ∧
    readResource c r4 = (.err .notInited, []) ∧
    callTool c r5 = (.err .notInited, []) := by
  refine ⟨?_, ?_, ?_, ?_, ?_⟩ <;> simp [ping, listTools, listResources, readResource,
    callTool, h]

theorem c1_gated_ops_before_init_witness :
    (ClientState.mk false true false false none).initedFlag = false ∧
    (ping (ClientState.mk false true false false none) (.ok ()) =
      (.err .notInited, []) ∧
    listTools (ClientState.mk false true false false none) (.ok ⟨[], none⟩) =
      (.err .notInited, []) ∧
    listResources (ClientState.mk false true false false none) (.ok ⟨[], none⟩) =
      (.err .notInited, []) ∧
    readResource (ClientState.mk false true false false none) (.ok []) =
      (.err .notInited, []) ∧
    callTool (ClientState.mk false true false false none) (.ok ⟨[], none⟩) =
      (.err .notInited, [])) :=
  ⟨rfl, c1_gated_ops_before_init _ rfl _ _ _ _ _⟩

theorem close_flags (c : ClientState) :
    (close c).1.initedFlag = false ∧ (close c).1.connOpen = false := by
  unfold close
  by_cases h1 : c.connOpen <;> by_cases h2 : c.ctxDone <;> simp [h1, h2]

/-- C3 counterexample: after Close has completed on a live initialized
client, Ping fails — but with the not-initialized error, which is not the
specification's SessionClosedError (no code path produces that error). -/
theorem c3_counterexample :
    ping (close (ClientState.mk true true false false none)).1 (.ok ()) =
      (.err ClientErr.notInited, []) ∧
    ClientErr.notInited ≠ ClientErr.sessionClosed := by
  exact ⟨rfl, by decide⟩

/-- C3 (amended): Close is terminal for the gated surface, but the failure
is the not-initialized error (Close clears the `initialized` flag), not a
distinct SessionClosedError; Initialize after Close is not gated at all —
it dereferences the cleared (nil) connection. -/
theorem c3_closed_ops (c : ClientState)
    (r1 : Except String Unit) (r2 : Except String ListToolsResult)
    (r3 : Except String ListResourcesResult) (r4 : Except String (List Json))
    (r5 : Except String CallToolResult) (rI : Except String InitResult) (nOk : Bool) :
    ping (close c).1 r1 = (.err .notInited, []) ∧
    listTools (close c).1 r2 = (.err .notInited, []) ∧
    listResources (close c).1 r3 = (.err .notInited, []) ∧
    readResource (close c).1 r4 = (.err .notInited, []) ∧
    callTool (close c).1 r5 = (.err .notInited, []) ∧
    initClient (close c).1 rI nOk = ((close c).1, .nilDeref, []) := by
  obtain ⟨hflag, hconn⟩ := close_flags c
  refine ⟨?_, ?_, ?_, ?_, ?_, ?_⟩ <;>
    simp [ping, listTools, listResources, readResource, callTool, initClient, hflag, hconn]

/-- C9: Close returns nil on every path — whatever the client state (peer
already gone, Close already called, Initialize never invoked). -/
theorem c9_close_never_fails (c : ClientState) : (close c).2.1 = none := rfl

/-- C5: a successful Initialize against a live connection sets the gate to
Ready, records the server info, and sends exactly one
`notifications/initialized` notification, strictly after the initialize
response was received. -/
theorem c5_init_ready_then_notify (c : ClientState) (r : InitResult)
    (h : c.connOpen = true) :
    (initClient c (.ok r) true).1.initedFlag = true ∧
    (initClient c (.ok r) true).1.srvInfo = some r ∧
    (initClient c (.ok r) true).2.1 = GoResult.ok r ∧
    (initClient c (.ok r) true).2.2 =
      [.callSent "initialize", .respReceived, .notifySent "notifications/initialized"] ∧
    ((initClient c (.ok r) true).2.2).count
      (WireEvent.notifySent "notifications/initialized") = 1 ∧
    ((initClient c (.ok r) true).2.2).indexOf WireEvent.respReceived <
      ((initClient c (.ok r) true).2.2).indexOf
        (WireEvent.notifySent "notifications/initialized") := by
  have hev : (initClient c (.ok r) true).2.2 =
      [.callSent "initialize", .respReceived, .notifySent "notifications/initialized"] := by
    simp [initClient, h]
  refine ⟨by simp [initClient, h], by simp [initClient, h], by simp [initClient, h], hev,
    by rw [hev]; decide, by rw [hev]; decide⟩

theorem c5_init_ready_then_notify_witness :
    (ClientState.mk false true false false none).connOpen = true ∧
    (initClient (ClientState.mk false true false false none)
      (.ok ⟨"2024-11-05", ⟨"x", "1"⟩, none⟩) true).1.initedFlag = true ∧
    (initClient (ClientState.mk false true false false none)
      (.ok ⟨"2024-11-05", ⟨"x", "1"⟩, none⟩) true).2.2 =
      [.callSent "initialize", .respReceived, .notifySent "notifications/initialized"] :=
  ⟨rfl, (c5_init_ready_then_notify _ _ rfl).1,
    (c5_init_ready_then_notify _ _ rfl).2.2.2.1⟩

/-- C4: evaluation at the failing input — a `tools/list` reply carrying
next cursor `cursor1` comes back from ListTools with a nil next cursor
(the source returns `result.Tools, nil, nil`), while ListResources on the
same shape of reply forwards the reply's next cursor. -/
theorem c4_listTools_drops_cursor :
    listTools (ClientState.mk true true false false none)
      (.ok ⟨[⟨"time", none⟩], some "cursor1"⟩) =
      (.ok ([⟨"time", none⟩], none), [.callSent "tools/list", .respReceived]) ∧
    (none : Option String) ≠ some "cursor1" ∧
    listResources (ClientState.mk true true false false none)
      (.ok ⟨[⟨"u", "r"⟩], some "cursor1"⟩) =
      (.ok ([⟨"u", "r"⟩], some "cursor1"), [.callSent "resources/list", .respReceived]) := by
  exact ⟨rfl, by decide, rfl⟩

/-! # Lemmas: pagination -/

theorem pageChain_ne_nil {T : Type}
    {fetch : Option String → List T × Option String × Option String}
    {cur : Option String} {pages : List (List T × Option String)}
    (h : PageChain fetch cur pages) : pages ≠ [] := by
  cases h <;> simp

theorem dropLast_cons_ne {α : Type} (a : α) (l : List α) (h : l ≠ []) :
    (a :: l).dropLast = a :: l.dropLast := by
  cases l with
  | nil => exact absurd rfl h
  | cons b t => rfl

theorem fetchAllAux_chain {T : Type}
    (fetch : Option String → List T × Option String × Option String)
    (pages : List (List T × Option String)) (cur : Option String)
    (hchain : PageChain fetch cur pages) :
    ∀ (acc : List T) (calls : List (Option String)),
    fetchAllAux fetch pages.length cur acc calls =
      some ((acc ++ (pages.map Prod.fst).flatten, none),
        calls ++ cur :: (pages.dropLast.map Prod.snd)) := by
  induction hchain with
  | last cursor items hf =>
    intro acc calls
    simp [fetchAllAux, hf]
  | step cursor items c2 rest hf hrest ih =>
    intro acc calls
    have hlen : ((items, some c2) :: rest).length = rest.length + 1 := rfl
    rw [hlen]
    simp only [fetchAllAux, hf]
    rw [ih (acc ++ items) (calls ++ [cursor])]
    have hne := pageChain_ne_nil hrest
    rw [dropLast_cons_ne _ _ hne]
    simp

/-- C8: when the fetches form a chain of n pages ending in an absent next
cursor, FetchAll with fuel n terminates with the concatenation of all
pages' items, having issued exactly n fetch calls that thread each
returned cursor into the next call. -/
theorem c8_fetchAll_pages {T : Type}
    (fetch : Option String → List T × Option String × Option String)
    (pages : List (List T × Option String)) (h : PageChain fetch none pages) :
    fetchAllAux fetch pages.length none [] [] =
      some (((pages.map Prod.fst).flatten, none),
        none :: (pages.dropLast.map Prod.snd)) ∧
    (none :: (pages.dropLast.map Prod.snd) : List (Option String)).length = pages.length ∧
    FetchAll fetch pages.length = some ((pages.map Prod.fst).flatten, none) := by
  have hmain := fetchAllAux_chain fetch pages none h [] []
  simp only [List.nil_append] at hmain
  refine ⟨hmain, ?_, ?_⟩
  · have hne := pageChain_ne_nil h
    have hlen : pages.dropLast.length = pages.length - 1 := List.length_dropLast pages
    have hpos : 1 ≤ pages.length := by
      cases pages with
      | nil => exact absurd rfl hne
      | cons p ps => simp
    simp only [List.length_cons, List.length_map, hlen]
    omega
  · unfold FetchAll
    rw [hmain]
    rfl

theorem c8_fetchAll_pages_witness :
    PageChain twoPageFetch none [(["a", "b"], some "cursor1"), (["c"], none)] ∧
    FetchAll twoPageFetch 2 = some (["a", "b", "c"], none) := by
  have hch : PageChain twoPageFetch none [(["a", "b"], some "cursor1"), (["c"], none)] :=
    PageChain.step none ["a", "b"] "cursor1" _ rfl
      (PageChain.last (some "cursor1") ["c"] rfl)
  exact ⟨hch, (c8_fetchAll_pages twoPageFetch _ hch).2.2⟩

theorem fetchAllAux_err {T : Type}
    (fetch : Option String → List T × Option String × Option String)
    (k : Nat) (cur : Option String) (e : String) (herr : ErrFetchAt fetch cur k e) :
    ∀ (fuel : Nat), k ≤ fuel → ∀ (acc : List T) (calls : List (Option String)),
    (fetchAllAux fetch fuel cur acc calls).map Prod.fst =
      some ([], some ("fetch failed: " ++ e)) := by
  induction herr with
  | here cursor items nc e hf =>
    intro fuel hk acc calls
    obtain ⟨f2, rfl⟩ : ∃ f2, fuel = f2 + 1 := ⟨fuel - 1, by omega⟩
    simp [fetchAllAux, hf]
  | later cursor items c2 k e hf hrest ih =>
    intro fuel hk acc calls
    obtain ⟨f2, rfl⟩ : ∃ f2, fuel = f2 + 1 := ⟨fuel - 1, by omega⟩
    simp only [fetchAllAux, hf]
    exact ih f2 (by omega) _ _

/-- C10: if the k-th fetch fails with error e (after k-1 pages that each
carried a next cursor), FetchAll returns a nil item list together with the
wrapped error `fetch failed: e` — the items accumulated from the earlier
pages are discarded, never partially returned. -/
theorem c10_fetchAll_err {T : Type}
    (fetch : Option String → List T × Option String × Option String)
    (k : Nat) (e : String) (fuel : Nat) (h : ErrFetchAt fetch none k e) (hk : k ≤ fuel) :
    FetchAll fetch fuel = some (([] : List T), some ("fetch failed: " ++ e)) := by
  unfold FetchAll
  exact fetchAllAux_err fetch k none e h fuel hk [] []

theorem c10_fetchAll_err_witness :
    ErrFetchAt errPageFetch none 2 "boom" ∧ 2 ≤ 2 ∧
    FetchAll errPageFetch 2 = some ([], some "fetch failed: boom") := by
  have herr : ErrFetchAt errPageFetch none 2 "boom" :=
    ErrFetchAt.later none ["a"] "c1" 1 "boom" rfl
      (ErrFetchAt.here (some "c1") [] none "boom" rfl)
  exact ⟨herr, le_refl 2, c10_fetchAll_err errPageFetch 2 "boom" 2 herr (le_refl 2)⟩

/-! # Lemmas: session correlation -/

theorem dispatchAll_cons (s : SessionSt) (r : WireResp) (rs : List WireResp) :
    dispatchAll s (r :: rs) = dispatchAll (dispatchOne s r) rs := rfl

theorem dispatchOne_inv (s : SessionSt) (r : WireResp) (h : SessionInv s) :
    SessionInv (dispatchOne s r) := by
  obtain ⟨h1, h2, h3, h4⟩ := h
  unfold dispatchOne
  by_cases hmem : r.id ∈ s.pending
  · simp only [hmem, if_true]
    refine ⟨?_, ?_, ?_, ?_⟩
    · intro p hp
      simp only [List.mem_append, List.mem_singleton] at hp
      rcases hp with hp | hp
      · exact h1 p hp
      · simp [hp]
    · simp only [List.map_append, List.map_cons, List.map_nil]
      refine List.Nodup.append h2 (List.nodup_singleton _) ?_
      intro i hi hi2
      simp only [List.mem_singleton] at hi2
      subst hi2
      exact h4 _ hi hmem
    · exact List.Nodup.erase _ h3
    · intro i hi
      simp only [List.map_append, List.map_cons, List.map_nil, List.mem_append,
        List.mem_singleton] at hi
      rcases hi with hi | hi
      · intro hcon
        exact h4 i hi (List.mem_of_mem_erase hcon)
      · subst hi
        intro hcon
        exact ((List.Nodup.mem_erase_iff h3).mp hcon).1 rfl
  · simp only [hmem, if_false]
    exact ⟨h1, h2, h3, h4⟩

theorem dispatchAll_inv (s : SessionSt) (rs : List WireResp) (h : SessionInv s) :
    SessionInv (dispatchAll s rs) := by
  induction rs generalizing s with
  | nil => exact h
  | cons r rs ih =>
    rw [dispatchAll_cons]
    exact ih _ (dispatchOne_inv s r h)

theorem dispatchOne_delivered_mono (s : SessionSt) (r : WireResp) (i : Nat)
    (h : i ∈ s.delivered.map Prod.fst) :
    i ∈ (dispatchOne s r).delivered.map Prod.fst := by
  unfold dispatchOne
  by_cases hmem : r.id ∈ s.pending
  · simp only [hmem, if_true, List.map_append, List.mem_append]
    exact Or.inl h
  · simpa [hmem] using h

theorem dispatchAll_delivered_mono (rs : List WireResp) :
    ∀ (s : SessionSt) (i : Nat), i ∈ s.delivered.map Prod.fst →
    i ∈ (dispatchAll s rs).delivered.map Prod.fst := by
  induction rs with
  | nil => exact fun s i h => h
  | cons r rs ih =>
    intro s i h
    rw [dispatchAll_cons]
    exact ih _ i (dispatchOne_delivered_mono s r i h)

theorem dispatchAll_complete (rs : List WireResp) :
    ∀ (s : SessionSt) (i : Nat), i ∈ s.pending → (∃ r ∈ rs, r.id = i) →
    i ∈ (dispatchAll s rs).delivered.map Prod.fst := by
  induction rs with
  | nil =>
    rintro s i hp ⟨r, hr, _⟩
    simp at hr
  | cons r0 rs ih =>
    rintro s i hp ⟨r, hr, hid⟩
    rw [dispatchAll_cons]
    by_cases hid0 : r0.id = i
    · have hdel : i ∈ (dispatchOne s r0).delivered.map Prod.fst := by
        unfold dispatchOne
        rw [hid0]
        simp [hp]
      exact dispatchAll_delivered_mono rs _ i hdel
    · have hpend : i ∈ (dispatchOne s r0).pending := by
        unfold dispatchOne
        by_cases hm : r0.id ∈ s.pending
        · simp only [hm, if_true]
          exact (List.mem_erase_of_ne fun he => hid0 he.symm).mpr hp
        · simpa [hm] using hp
      rcases List.mem_cons.mp hr with hr0 | hrs
      · exact absurd (hr0 ▸ hid) hid0
      · exact ih (dispatchOne s r0) i hpend ⟨r, hrs, hid⟩

/-- C2: with distinct pending request ids and arbitrary arrival order,
dispatching any sequence of responses delivers, to each pending request
whose id occurs in the sequence, exactly the response carrying its own id;
every delivery matches its id and no id is ever delivered twice. -/
theorem c2_correlation (s : SessionSt) (rs : List WireResp)
    (hnodup : s.pending.Nodup) (hdel : s.delivered = []) :
    (∀ p ∈ (dispatchAll s rs).delivered, p.2.id = p.1) ∧
    ((dispatchAll s rs).delivered.map Prod.fst).Nodup ∧
    (∀ i ∈ s.pending, (∃ r ∈ rs, r.id = i) →
      i ∈ (dispatchAll s rs).delivered.map Prod.fst) := by
  have hinv : SessionInv s := by
    refine ⟨?_, ?_, hnodup, ?_⟩ <;> simp [hdel]
  have hall := dispatchAll_inv s rs hinv
  exact ⟨hall.1, hall.2.1, fun i hi hex => dispatchAll_complete rs s i hi hex⟩

theorem c2_correlation_witness :
    (SessionSt.mk [1, 2] []).pending.Nodup ∧
    ((∀ p ∈ (dispatchAll (SessionSt.mk [1, 2] [])
        [WireResp.mk 2 "b", WireResp.mk 1 "a"]).delivered, p.2.id = p.1) ∧
    ((dispatchAll (SessionSt.mk [1, 2] [])
        [WireResp.mk 2 "b", WireResp.mk 1 "a"]).delivered.map Prod.fst).Nodup ∧
    (∀ i ∈ (SessionSt.mk [1, 2] []).pending,
      (∃ r ∈ [WireResp.mk 2 "b", WireResp.mk 1 "a"], r.id = i) →
      i ∈ (dispatchAll (SessionSt.mk [1, 2] [])
        [WireResp.mk 2 "b", WireResp.mk 1 "a"]).delivered.map Prod.fst)) :=
  ⟨by decide, c2_correlation (SessionSt.mk [1, 2] [])
    [WireResp.mk 2 "b", WireResp.mk 1 "a"] (by decide) rfl⟩
